import Mathlib

/-!
Verification of the resumable enrichment pipeline of the Web-Scraping-Pipeline
repository (`Scraping_Github_Files/`), against its natural-language specification.

The development shallowly embeds the two core stages:

* `step5_analysis.py` — the Concurrent Item Analyzer (`normalize_text`,
  `find_best_local_match`, `analyze_single_paper`, `run_fast_pipeline`);
* `step2_relevancy_filter.py` — the Batch Classifier (`pre_flight_check`,
  `screen_batch`, the pre-flight / batching / merge phases, `filtered_df`).

External collaborators (the `thefuzz` scorer, the Gemini network client and the
JSON decoder) are not repository code; they are represented by explicit
parameters / oracles at exactly the interface the Python code consumes.
All repository-side control flow is translated from the source.
-/

set_option autoImplicit false

/-! ### Text Normalizer (`step5_analysis.py`, `normalize_text`)

String operations are carried out over `List Char` with structural recursion
(Lean's built-in `String` traversals use well-founded recursion over byte
positions, which the kernel cannot evaluate). `asciiLower` is Python
`str.lower()` on the ASCII range. -/

/-- Python's whitespace class as matched by `\s` / `str.split()` (ASCII part). -/
def isPySpace (c : Char) : Bool :=
  c = ' ' || c = '\t' || c = '\n' || c = '\r' || c = '\x0b' || c = '\x0c'

/-- Characters kept by the regex `[^a-z0-9\s]` substitution. -/
def keepChar (c : Char) : Bool :=
  ('a' ≤ c && c ≤ 'z') || ('0' ≤ c && c ≤ '9') || isPySpace c

/-- `str.lower()` on one character (ASCII range). -/
def asciiLower (c : Char) : Char :=
  if 'A' ≤ c && c ≤ 'Z' then Char.ofNat (c.toNat + 32) else c

/-- `str.lower()` on a character sequence. -/
def lowerChars (l : List Char) : List Char := l.map asciiLower

/-- `needle in hay` (Python substring test) over character lists. -/
def isSubChars (needle hay : List Char) : Bool :=
  (List.range (hay.length + 1)).any (fun i => needle.isPrefixOf (hay.drop i))

/-- `needle in hay` (Python substring test) on strings. -/
def substrB (needle hay : String) : Bool :=
  isSubChars needle.toList hay.toList

/-- `str.split()` with no separator: split on whitespace runs, dropping empty
pieces, accumulating the current word in reverse. -/
def wordsAux : List Char → List Char → List (List Char)
  | [], acc => if acc.isEmpty then [] else [acc.reverse]
  | c :: rest, acc =>
    if isPySpace c then
      if acc.isEmpty then wordsAux rest [] else acc.reverse :: wordsAux rest []
    else
      wordsAux rest (c :: acc)

/-- `" ".join(words)`. -/
def joinWords : List (List Char) → List Char
  | [] => []
  | [w] => w
  | w :: ws => w ++ ' ' :: joinWords ws

/-- If the first list is a prefix of the second, return the remainder after
removing it. -/
def stripPre : List Char → List Char → Option (List Char)
  | [], s => some s
  | _ :: _, [] => none
  | p :: ps, c :: cs => if p = c then stripPre ps cs else none

/-- Python `str.replace` (left-to-right, non-overlapping replacement of every
occurrence of a non-empty pattern), written with a structural fuel argument so
the kernel can evaluate it; `replChars` supplies fuel equal to the input
length, which always suffices. -/
def replFuel (pat repl : List Char) : Nat → List Char → List Char
  | _, [] => []
  | 0, l => l
  | fuel + 1, c :: rest =>
    match pat with
    | [] => c :: replFuel pat repl fuel rest
    | _ :: _ =>
      match stripPre pat (c :: rest) with
      | some rem => repl ++ replFuel pat repl fuel rem
      | none => c :: replFuel pat repl fuel rest

/-- Python `str.replace` on character lists. -/
def replChars (pat repl : List Char) (l : List Char) : List Char :=
  replFuel pat repl l.length l

/-- `normalize_text` from `step5_analysis.py`:
`str(text).lower().replace('.pdf','')`, then `re.sub(r'[^a-z0-9\s]', ' ', ...)`,
then `" ".join(text.split())`. -/
def normalize_text (text : String) : String :=
  let lowered := lowerChars text.toList
  let nopdf := replChars ".pdf".toList [] lowered
  let subbed := nopdf.map (fun c => if keepChar c then c else ' ')
  String.mk (joinWords (wordsAux subbed []))

/-- Python's `str(...)` coercion applied to a possibly-absent (`None`) argument,
as it reaches `normalize_text` when the caller passes `None`. -/
def pyStr : Option String → String
  | none => "None"
  | some s => s

/-- `normalize_text` as invoked on a possibly-absent input. -/
def normalize_text_py (text : Option String) : String :=
  normalize_text (pyStr text)

/-! ### Fuzzy Matcher (`step5_analysis.py`, `find_best_local_match`)

`thefuzz.fuzz.token_set_ratio` is an external library; it is passed in as a
scoring function `fz : String → String → Nat` (the library contract: an
integer ratio in `[0, 100]`, in particular non-negative). -/

/-- One iteration of the `for fname in local_files` loop: the running pair is
`(best_file, best_score)`, updated when `score > best_score` (strict). -/
def fbStep (g : String → Int) (p : Option String × Int) (f : String) :
    Option String × Int :=
  if g f > p.2 then (some f, g f) else p

/-- The matching loop, folding `fbStep` from an initial accumulator. -/
def bestGo (g : String → Int) (files : List String) (p : Option String × Int) :
    Option String × Int :=
  files.foldl (fbStep g) p

/-- `find_best_local_match`: normalizes the citation once, scores every
candidate file (normalized) and keeps the strictly-best, starting from
`(None, -1)`. -/
def find_best_local_match (fz : String → String → Nat) (citation : String)
    (files : List String) : Option String × Int :=
  bestGo (fun f => ((fz (normalize_text citation) (normalize_text f) : Nat) : Int))
    files (none, -1)

theorem bestGo_nil (g : String → Int) (p : Option String × Int) :
    bestGo g [] p = p := rfl

theorem bestGo_cons (g : String → Int) (f : String) (fs : List String)
    (p : Option String × Int) :
    bestGo g (f :: fs) p = bestGo g fs (fbStep g p f) := rfl

theorem bestGo_all_le (g : String → Int) :
    ∀ (files : List String) (p : Option String × Int),
      (∀ f ∈ files, g f ≤ p.2) → bestGo g files p = p := by
  intro files
  induction files with
  | nil => intro p _; rfl
  | cons f fs ih =>
    intro p h
    rw [bestGo_cons]
    have hf : g f ≤ p.2 := h f (by simp)
    have hstep : fbStep g p f = p := by
      unfold fbStep
      rw [if_neg (by omega)]
    rw [hstep]
    exact ih p (fun x hx => h x (by simp [hx]))

theorem bestGo_improve (g : String → Int) :
    ∀ (files : List String) (p : Option String × Int),
      (∃ f ∈ files, p.2 < g f) →
      ∃ k, ∃ hk : k < files.length,
        bestGo g files p = (some (files.get ⟨k, hk⟩), g (files.get ⟨k, hk⟩)) ∧
        p.2 < g (files.get ⟨k, hk⟩) ∧
        (∀ j (hj : j < files.length), g (files.get ⟨j, hj⟩) ≤ g (files.get ⟨k, hk⟩)) ∧
        (∀ j (hj : j < k), g (files.get ⟨j, Nat.lt_trans hj hk⟩) < g (files.get ⟨k, hk⟩)) := by
  intro files
  induction files with
  | nil => intro p h; simp at h
  | cons f fs ih =>
    intro p h
    rw [bestGo_cons]
    by_cases hf : p.2 < g f
    · have hstep : fbStep g p f = (some f, g f) := by
        unfold fbStep; rw [if_pos (by omega)]
      rw [hstep]
      by_cases hrest : ∃ f' ∈ fs, g f < g f'
      · obtain ⟨k, hk, heq, hgt, hle, hfirst⟩ := ih (some f, g f) hrest
        refine ⟨k + 1, by simpa using Nat.succ_lt_succ hk, ?_, ?_, ?_, ?_⟩
        · simpa using heq
        · simp only [List.get_cons_succ]
          exact lt_trans hf hgt
        · intro j hj
          cases j with
          | zero => simp only [List.get_cons_succ, List.get]; exact le_of_lt hgt
          | succ j' =>
            simp only [List.get_cons_succ]
            exact hle j' (Nat.lt_of_succ_lt_succ hj)
        · intro j hj
          cases j with
          | zero => simp only [List.get_cons_succ, List.get]; exact hgt
          | succ j' =>
            simp only [List.get_cons_succ]
            exact hfirst j' (Nat.lt_of_succ_lt_succ hj)
      · push_neg at hrest
        have : bestGo g fs (some f, g f) = (some f, g f) :=
          bestGo_all_le g fs (some f, g f) (by simpa using hrest)
        refine ⟨0, by simp, by simpa using this, by simpa using hf, ?_, ?_⟩
        · intro j hj
          cases j with
          | zero => simp [List.get]
          | succ j' =>
            simp only [List.get_cons_succ, List.get]
            exact hrest _ (fs.get_mem _ _)
        · intro j hj; omega
    · have hstep : fbStep g p f = p := by
        unfold fbStep; rw [if_neg (by omega)]
      rw [hstep]
      have hrest : ∃ f' ∈ fs, p.2 < g f' := by
        obtain ⟨x, hx, hgx⟩ := h
        rcases List.mem_cons.mp hx with rfl | hx'
        · omega
        · exact ⟨x, hx', hgx⟩
      obtain ⟨k, hk, heq, hgt, hle, hfirst⟩ := ih p hrest
      refine ⟨k + 1, by simpa using Nat.succ_lt_succ hk, ?_, ?_, ?_, ?_⟩
      · simpa using heq
      · simpa using hgt
      · intro j hj
        cases j with
        | zero =>
          simp only [List.get_cons_succ, List.get]
          have : g f ≤ p.2 := by omega
          exact le_trans this (le_of_lt hgt)
        | succ j' =>
          simp only [List.get_cons_succ]
          exact hle j' (Nat.lt_of_succ_lt_succ hj)
      · intro j hj
        cases j with
        | zero =>
          simp only [List.get_cons_succ, List.get]
          omega
        | succ j' =>
          simp only [List.get_cons_succ]
          exact hfirst j' (Nat.lt_of_succ_lt_succ hj)

/-! ### Concurrent Item Analyzer Record Store (`step5_analysis.py`, `run_fast_pipeline`)

One `Row5` per CSV row: the fields the stage reads (`Full Citation`, `Link`)
and the one it writes (`Method`). Pandas `NaN` cells reach the code as the
string `"nan"` via `str(...)`, so every field is modelled as the string the
code actually compares. -/

structure Row5 where
  citation : String
  link : String
  method : String
deriving DecidableEq, Repr

/-- The resume sentinels: `existing_method not in ["nan", "", "None", "Unknown"]`
skips the row, so a row is still pending exactly when its `Method` is one of
these. -/
def sentinelMethods : List String := ["nan", "", "None", "Unknown"]

/-- Resume predicate of `run_fast_pipeline` (line 175). -/
def rowPending (r : Row5) : Bool := sentinelMethods.contains r.method

/-- Structural skip of separator / online-only rows (line 178):
`not citation or "---" in citation or "Online Link Only" in link_status`. -/
def rowSkipped (r : Row5) : Bool :=
  r.citation = "" || substrB "---" r.citation || substrB "Online Link Only" r.link

/-- The per-row decision of the task-building loop: `None` when the row is
skipped (already done, structural, or fuzzy score not above 85), otherwise the
`(index, matched_file)` pair appended to `tasks`. -/
def rowTask (fz : String → String → Nat) (pdfs : List String) (i : Nat)
    (r : Row5) : Option (Nat × Option String) :=
  if rowPending r && !rowSkipped r then
    if (find_best_local_match fz r.citation pdfs).2 > 85 then
      some (i, (find_best_local_match fz r.citation pdfs).1)
    else none
  else none

/-- The `for index, row in df.iterrows()` task-building loop, carrying the
running row index. -/
def selGo (fz : String → String → Nat) (pdfs : List String) :
    Nat → List Row5 → List (Nat × Option String)
  | _, [] => []
  | i, r :: rs =>
    match rowTask fz pdfs i r with
    | some t => t :: selGo fz pdfs (i + 1) rs
    | none => selGo fz pdfs (i + 1) rs

/-- The `tasks` list built by `run_fast_pipeline` before submission. -/
def select_tasks (fz : String → String → Nat) (df : List Row5)
    (pdfs : List String) : List (Nat × Option String) :=
  selGo fz pdfs 0 df

/-- `df.at[row_idx, "Method"] = method`: in-place update of one row's `Method`. -/
def setMethod : List Row5 → Nat → String → List Row5
  | [], _, _ => []
  | r :: rs, 0, m => { r with method := m } :: rs
  | r :: rs, i + 1, m => r :: setMethod rs i m

/-- The result-merging loop: each completed task writes `Method` at its row
index. The classification outcome of a task is abstracted as a deterministic
function `s` of the row index (the Gemini service is an external
collaborator); only the `Method` column is written (the `Reason` write is
commented out in the source). -/
def mergeAll (s : Nat → String) (df : List Row5)
    (tasks : List (Nat × Option String)) : List Row5 :=
  tasks.foldl (fun d t => setMethod d t.1 (s t.1)) df

/-- `run_fast_pipeline`: build the pending task list, then merge every task's
result (when `tasks` is empty the code returns with the store unchanged, which
coincides with folding over `[]`). -/
def run_fast_pipeline (fz : String → String → Nat) (s : Nat → String)
    (df : List Row5) (pdfs : List String) : List Row5 :=
  mergeAll s df (select_tasks fz df pdfs)

theorem setMethod_get? (m : String) :
    ∀ (df : List Row5) (i j : Nat),
      (setMethod df i m).get? j =
        if j = i then (df.get? j).map (fun r => { r with method := m })
        else df.get? j := by
  intro df
  induction df with
  | nil => intro i j; simp [setMethod]
  | cons r rs ih =>
    intro i j
    cases i with
    | zero =>
      cases j with
      | zero => simp [setMethod]
      | succ j' => simp [setMethod]
    | succ i' =>
      cases j with
      | zero => simp [setMethod]
      | succ j' =>
        simp only [setMethod, List.get?_cons_succ]
        rw [ih i' j']
        by_cases h : j' = i' <;> simp [h]

theorem setMethod_length (m : String) :
    ∀ (df : List Row5) (i : Nat), (setMethod df i m).length = df.length := by
  intro df
  induction df with
  | nil => intro i; rfl
  | cons r rs ih =>
    intro i
    cases i with
    | zero => simp [setMethod]
    | succ i' => simp [setMethod, ih i']

theorem mergeAll_length (s : Nat → String) :
    ∀ (tasks : List (Nat × Option String)) (df : List Row5),
      (mergeAll s df tasks).length = df.length := by
  intro tasks
  induction tasks with
  | nil => intro df; rfl
  | cons t ts ih =>
    intro df
    show (mergeAll s (setMethod df t.1 (s t.1)) ts).length = df.length
    rw [ih, setMethod_length]

theorem mergeAll_get?_not_mem (s : Nat → String) :
    ∀ (tasks : List (Nat × Option String)) (df : List Row5) (j : Nat),
      j ∉ tasks.map Prod.fst → (mergeAll s df tasks).get? j = df.get? j := by
  intro tasks
  induction tasks with
  | nil => intro df j _; rfl
  | cons t ts ih =>
    intro df j hj
    simp only [List.map_cons, List.mem_cons, not_or] at hj
    show (mergeAll s (setMethod df t.1 (s t.1)) ts).get? j = df.get? j
    rw [ih _ j hj.2, setMethod_get?, if_neg hj.1]

theorem mergeAll_get?_mem (s : Nat → String) :
    ∀ (tasks : List (Nat × Option String)) (df : List Row5) (j : Nat),
      j ∈ tasks.map Prod.fst →
      (mergeAll s df tasks).get? j = (df.get? j).map (fun r => { r with method := s j }) := by
  intro tasks
  induction tasks with
  | nil => intro df j h; simp at h
  | cons t ts ih =>
    intro df j hj
    show (mergeAll s (setMethod df t.1 (s t.1)) ts).get? j = _
    by_cases hmem : j ∈ ts.map Prod.fst
    · rw [ih _ j hmem, setMethod_get?]
      by_cases hji : j = t.1
      · subst hji
        rw [if_pos rfl, Option.map_map]
        rfl
      · rw [if_neg hji]
    · have hjt : j = t.1 := by
        simp only [List.map_cons, List.mem_cons] at hj
        tauto
      subst hjt
      rw [mergeAll_get?_not_mem s ts _ _ hmem, setMethod_get?, if_pos rfl]

theorem rowTask_fst (fz : String → String → Nat) (pdfs : List String)
    (i : Nat) (r : Row5) (t : Nat × Option String)
    (h : rowTask fz pdfs i r = some t) : t.1 = i := by
  unfold rowTask at h
  by_cases h1 : rowPending r && !rowSkipped r
  · rw [if_pos h1] at h
    by_cases h2 : (find_best_local_match fz r.citation pdfs).2 > 85
    · rw [if_pos h2] at h
      cases h
      rfl
    · rw [if_neg h2] at h
      cases h
  · rw [if_neg h1] at h
    cases h

theorem rowTask_pending (fz : String → String → Nat) (pdfs : List String)
    (i : Nat) (r : Row5) (t : Nat × Option String)
    (h : rowTask fz pdfs i r = some t) : rowPending r = true := by
  unfold rowTask at h
  by_cases h1 : rowPending r && !rowSkipped r
  · exact (Bool.and_eq_true_iff.mp h1).1
  · rw [if_neg h1] at h
    cases h

theorem selGo_mem (fz : String → String → Nat) (pdfs : List String) :
    ∀ (df : List Row5) (k i : Nat) (f : Option String),
      (i, f) ∈ selGo fz pdfs k df ↔
        ∃ j r, df.get? j = some r ∧ i = k + j ∧
          rowTask fz pdfs i r = some (i, f) := by
  intro df
  induction df with
  | nil =>
    intro k i f
    simp [selGo]
  | cons r rs ih =>
    intro k i f
    cases h : rowTask fz pdfs k r with
    | none =>
      simp only [selGo, h]
      rw [ih (k + 1) i f]
      constructor
      · rintro ⟨j, r', hget, hi, htask⟩
        exact ⟨j + 1, r', by simpa using hget, by omega, htask⟩
      · rintro ⟨j, r', hget, hi, htask⟩
        cases j with
        | zero =>
          simp only [List.get?_cons_zero] at hget
          cases hget
          have : i = k := by omega
          subst this
          rw [h] at htask
          cases htask
        | succ j' =>
          simp only [List.get?_cons_succ] at hget
          exact ⟨j', r', hget, by omega, htask⟩
    | some t =>
      have ht1 : t.1 = k := rowTask_fst fz pdfs k r t h
      simp only [selGo, h, List.mem_cons]
      rw [ih (k + 1) i f]
      constructor
      · rintro (heq | ⟨j, r', hget, hi, htask⟩)
        · refine ⟨0, r, rfl, ?_, ?_⟩
          · have : i = t.1 := by rw [← heq]
            omega
          · have hik : i = k := by
              have : i = t.1 := by rw [← heq]
              omega
            subst hik
            rw [h, heq]
        · exact ⟨j + 1, r', by simpa using hget, by omega, htask⟩
      · rintro ⟨j, r', hget, hi, htask⟩
        cases j with
        | zero =>
          simp only [List.get?_cons_zero] at hget
          cases hget
          have : i = k := by omega
          subst this
          rw [h] at htask
          left
          exact (Option.some.injEq _ _ ▸ htask).symm
        | succ j' =>
          simp only [List.get?_cons_succ] at hget
          right
          exact ⟨j', r', hget, by omega, htask⟩

theorem selGo_lb (fz : String → String → Nat) (pdfs : List String) :
    ∀ (df : List Row5) (k i : Nat) (f : Option String),
      (i, f) ∈ selGo fz pdfs k df → k ≤ i := by
  intro df k i f h
  obtain ⟨j, r, _, hi, _⟩ := (selGo_mem fz pdfs df k i f).mp h
  omega

theorem selGo_nodup (fz : String → String → Nat) (pdfs : List String) :
    ∀ (df : List Row5) (k : Nat),
      ((selGo fz pdfs k df).map Prod.fst).Nodup := by
  intro df
  induction df with
  | nil => intro k; simp [selGo]
  | cons r rs ih =>
    intro k
    cases h : rowTask fz pdfs k r with
    | none => simpa [selGo, h] using ih (k + 1)
    | some t =>
      have ht1 : t.1 = k := rowTask_fst fz pdfs k r t h
      simp only [selGo, h, List.map_cons, List.nodup_cons]
      refine ⟨?_, ih (k + 1)⟩
      intro hmem
      obtain ⟨⟨i, f⟩, hif, hfst⟩ := List.mem_map.mp hmem
      have := selGo_lb fz pdfs rs (k + 1) i f hif
      simp only at hfst
      omega

theorem Row5_eta_method (r : Row5) (m : String) (h : r.method = m) :
    { r with method := m } = r := by
  cases r
  simp only at h
  simp [h]

theorem mergeAll_perm (s : Nat → String) (df : List Row5)
    (t1 t2 : List (Nat × Option String)) (h : List.Perm t1 t2) :
    mergeAll s df t1 = mergeAll s df t2 := by
  apply List.ext
  intro j
  by_cases hm : j ∈ t1.map Prod.fst
  · rw [mergeAll_get?_mem s t1 df j hm,
      mergeAll_get?_mem s t2 df j ((h.map Prod.fst).mem_iff.mp hm)]
  · rw [mergeAll_get?_not_mem s t1 df j hm,
      mergeAll_get?_not_mem s t2 df j (fun hc => hm ((h.map Prod.fst).mem_iff.mpr hc))]

theorem run_fast_pipeline_idem (fz : String → String → Nat) (s : Nat → String)
    (df : List Row5) (pdfs : List String) :
    run_fast_pipeline fz s (run_fast_pipeline fz s df pdfs) pdfs
      = run_fast_pipeline fz s df pdfs := by
  apply List.ext
  intro j
  show (mergeAll s (run_fast_pipeline fz s df pdfs)
      (select_tasks fz (run_fast_pipeline fz s df pdfs) pdfs)).get? j
    = (run_fast_pipeline fz s df pdfs).get? j
  by_cases hmem : j ∈ (select_tasks fz (run_fast_pipeline fz s df pdfs) pdfs).map Prod.fst
  · rw [mergeAll_get?_mem s _ _ _ hmem]
    have hex : ∃ f, (j, f) ∈ select_tasks fz (run_fast_pipeline fz s df pdfs) pdfs := by
      obtain ⟨⟨i, f⟩, hif, hfst⟩ := List.mem_map.mp hmem
      simp only at hfst
      exact ⟨f, hfst ▸ hif⟩
    obtain ⟨f, hif⟩ := hex
    obtain ⟨j0, r, hget, hi, htask⟩ :=
      (selGo_mem fz pdfs (run_fast_pipeline fz s df pdfs) 0 j f).mp hif
    rw [show j0 = j by omega] at hget
    by_cases h1 : j ∈ (select_tasks fz df pdfs).map Prod.fst
    · have hout : (run_fast_pipeline fz s df pdfs).get? j
          = (df.get? j).map (fun r => { r with method := s j }) :=
        mergeAll_get?_mem s (select_tasks fz df pdfs) df j h1
      rw [hout]
      cases hdf : df.get? j with
      | none => rfl
      | some r0 =>
        exact congrArg some (Row5_eta_method _ _ rfl)
    · have hout : (run_fast_pipeline fz s df pdfs).get? j = df.get? j :=
        mergeAll_get?_not_mem s (select_tasks fz df pdfs) df j h1
      exfalso
      apply h1
      have hmemdf : (j, f) ∈ selGo fz pdfs 0 df :=
        (selGo_mem fz pdfs df 0 j f).mpr ⟨j, r, by rw [← hout]; exact hget, by omega, htask⟩
      exact List.mem_map.mpr ⟨(j, f), hmemdf, rfl⟩
  · rw [mergeAll_get?_not_mem s _ _ _ hmem]

/-! ### Concrete inputs for witnesses -/

/-- A concrete stand-in for `fuzz.token_set_ratio`: 100 on equal normalized
strings, 20 otherwise. -/
def fz0 : String → String → Nat := fun a b => if a = b then 100 else 20

/-- A concrete deterministic classification outcome per row index. -/
def s0 : Nat → String := fun _ => "Qualitative"

/-- A concrete Record Store: one pending matchable row, one separator row,
one already-classified row. -/
def df0 : List Row5 :=
  [⟨"Paper One", "", ""⟩, ⟨"---", "", ""⟩, ⟨"Paper Two", "", "Survey"⟩]

/-- A concrete artifact directory listing. -/
def pdfs0 : List String := ["Paper One.pdf"]

/-- C1: running the Concurrent Item Analyzer a second time, resuming from the
first run's checkpointed Record Store, yields the same store as the single
complete run; every task of the resumed run targets a row whose `Method` is
still a pending sentinel (so no row with a non-sentinel result is
reprocessed); merge indices within a run are pairwise distinct (no duplicate
merge); and the merged store does not depend on the completion order of the
submitted tasks. -/
theorem concurrent_analyzer_idempotent_resume
    (fz : String → String → Nat) (s : Nat → String) (df : List Row5)
    (pdfs : List String) :
    run_fast_pipeline fz s (run_fast_pipeline fz s df pdfs) pdfs
        = run_fast_pipeline fz s df pdfs
    ∧ (∀ i f, (i, f) ∈ select_tasks fz (run_fast_pipeline fz s df pdfs) pdfs →
        ∃ r, (run_fast_pipeline fz s df pdfs).get? i = some r ∧ rowPending r = true)
    ∧ ((select_tasks fz df pdfs).map Prod.fst).Nodup
    ∧ (∀ t : List (Nat × Option String),
        List.Perm t (select_tasks fz df pdfs) →
        mergeAll s df t = run_fast_pipeline fz s df pdfs) := by
  refine ⟨run_fast_pipeline_idem fz s df pdfs, ?_, selGo_nodup fz pdfs df 0, ?_⟩
  · intro i f hif
    obtain ⟨j0, r, hget, hi, htask⟩ :=
      (selGo_mem fz pdfs (run_fast_pipeline fz s df pdfs) 0 i f).mp hif
    refine ⟨r, ?_, rowTask_pending fz pdfs i r _ htask⟩
    rw [show j0 = i by omega] at hget
    exact hget
  · intro t ht
    exact mergeAll_perm s df t (select_tasks fz df pdfs) ht

/-- Witness for C1 at a concrete store, scorer and service. -/
theorem concurrent_analyzer_idempotent_resume_witness :
    run_fast_pipeline fz0 s0 (run_fast_pipeline fz0 s0 df0 pdfs0) pdfs0
      = run_fast_pipeline fz0 s0 df0 pdfs0 :=
  (concurrent_analyzer_idempotent_resume fz0 s0 df0 pdfs0).1

/-! ### Fuzzy matching claims -/

/-- The per-candidate score used inside `find_best_local_match`'s loop
(`fuzz.token_set_ratio(clean_cit, clean_file)`), as the `int` Python compares. -/
def scoreOf (fz : String → String → Nat) (citation : String) : String → Int :=
  fun f => ((fz (normalize_text citation) (normalize_text f) : Nat) : Int)

theorem find_best_local_match_eq (fz : String → String → Nat)
    (citation : String) (files : List String) :
    find_best_local_match fz citation files
      = bestGo (scoreOf fz citation) files (none, -1) := rfl

theorem rowTask_of_pending (fz : String → String → Nat) (pdfs : List String)
    (i : Nat) (r : Row5) (hp : rowPending r = true) (hs : rowSkipped r = false) :
    rowTask fz pdfs i r
      = if (find_best_local_match fz r.citation pdfs).2 > 85 then
          some (i, (find_best_local_match fz r.citation pdfs).1)
        else none := by
  unfold rowTask
  rw [if_pos (by rw [hp, hs]; rfl)]

theorem rowTask_empty_pdfs (fz : String → String → Nat) (i : Nat) (r : Row5) :
    rowTask fz [] i r = none := by
  unfold rowTask
  by_cases h : rowPending r && !rowSkipped r
  · rw [if_pos h]
    have h2 : find_best_local_match fz r.citation [] = (none, -1) := rfl
    rw [h2, if_neg (by norm_num)]
  · rw [if_neg h]

theorem selGo_empty_pdfs (fz : String → String → Nat) :
    ∀ (df : List Row5) (k : Nat), selGo fz [] k df = [] := by
  intro df
  induction df with
  | nil => intro k; rfl
  | cons r rs ih =>
    intro k
    simp only [selGo, rowTask_empty_pdfs]
    exact ih (k + 1)

/-- C8: on every non-empty candidate set, `find_best_local_match` returns the
first candidate attaining the maximum score; the pending row at index `i` is
enqueued iff that score strictly exceeds 85; otherwise the row is left
untouched by the run — its `Method` still a pending sentinel, so it stays
eligible for a future run. -/
theorem best_match_first_max_and_threshold
    (fz : String → String → Nat) (pdfs : List String) (hne : pdfs ≠ [])
    (s : Nat → String) (df : List Row5) (i : Nat) (r : Row5)
    (hget : df.get? i = some r) (hp : rowPending r = true)
    (hs : rowSkipped r = false) :
    (∃ k, ∃ hk : k < pdfs.length,
      find_best_local_match fz r.citation pdfs
        = (some (pdfs.get ⟨k, hk⟩), scoreOf fz r.citation (pdfs.get ⟨k, hk⟩))
      ∧ (∀ j (hj : j < pdfs.length),
          scoreOf fz r.citation (pdfs.get ⟨j, hj⟩)
            ≤ scoreOf fz r.citation (pdfs.get ⟨k, hk⟩))
      ∧ (∀ j (hj : j < k),
          scoreOf fz r.citation (pdfs.get ⟨j, Nat.lt_trans hj hk⟩)
            < scoreOf fz r.citation (pdfs.get ⟨k, hk⟩)))
    ∧ ((i, (find_best_local_match fz r.citation pdfs).1) ∈ select_tasks fz df pdfs
        ↔ (find_best_local_match fz r.citation pdfs).2 > 85)
    ∧ ((find_best_local_match fz r.citation pdfs).2 ≤ 85 →
        (run_fast_pipeline fz s df pdfs).get? i = some r ∧ rowPending r = true) := by
  have hmem_iff : ∀ f, ((i, f) ∈ select_tasks fz df pdfs
      ↔ rowTask fz pdfs i r = some (i, f)) := by
    intro f
    rw [select_tasks, selGo_mem fz pdfs df 0 i f]
    constructor
    · rintro ⟨j0, r', hget', hi, htask⟩
      rw [show j0 = i by omega] at hget'
      rw [hget] at hget'
      cases hget'
      exact htask
    · intro htask
      exact ⟨i, r, hget, by omega, htask⟩
  refine ⟨?_, ?_, ?_⟩
  · obtain ⟨f0, hf0⟩ := List.exists_mem_of_ne_nil pdfs hne
    have himpr : ∃ f ∈ pdfs, ((none, -1) : Option String × Int).2 < scoreOf fz r.citation f := by
      refine ⟨f0, hf0, ?_⟩
      have : (0 : Int) ≤ ((fz (normalize_text r.citation) (normalize_text f0) : Nat) : Int) :=
        Int.ofNat_nonneg _
      simp only [scoreOf]
      omega
    obtain ⟨k, hk, heq, _, hle, hfirst⟩ :=
      bestGo_improve (scoreOf fz r.citation) pdfs (none, -1) himpr
    exact ⟨k, hk, by rw [find_best_local_match_eq]; exact heq, hle, hfirst⟩
  · rw [hmem_iff]
    rw [rowTask_of_pending fz pdfs i r hp hs]
    constructor
    · intro h
      by_cases hc : (find_best_local_match fz r.citation pdfs).2 > 85
      · exact hc
      · rw [if_neg hc] at h
        cases h
    · intro hc
      rw [if_pos hc]
  · intro hle
    have hnot : i ∉ (select_tasks fz df pdfs).map Prod.fst := by
      intro hmem
      obtain ⟨⟨i', f⟩, hif, hfst⟩ := List.mem_map.mp hmem
      simp only at hfst
      have : (i, f) ∈ select_tasks fz df pdfs := by rw [← hfst]; exact hif
      have htask := (hmem_iff f).mp this
      rw [rowTask_of_pending fz pdfs i r hp hs] at htask
      by_cases hc : (find_best_local_match fz r.citation pdfs).2 > 85
      · omega
      · rw [if_neg hc] at htask
        cases htask
    refine ⟨?_, hp⟩
    rw [run_fast_pipeline, mergeAll_get?_not_mem s _ df i hnot]
    exact hget

/-- Witness for C8: a concrete pending row whose best candidate scores 100,
hence is enqueued. -/
theorem best_match_first_max_and_threshold_witness :
    ((0 : Nat), (find_best_local_match fz0 "Paper One" pdfs0).1)
      ∈ select_tasks fz0 df0 pdfs0 :=
  ((best_match_first_max_and_threshold fz0 pdfs0 (by decide) s0 df0 0
      ⟨"Paper One", "", ""⟩ (by decide) (by decide) (by decide)).2.1).mpr (by decide)

/-- C10: on an empty candidate set `find_best_local_match` returns
`(None, -1)` without failing; since `-1` does not exceed the threshold 85, no
task is ever enqueued and the run leaves the store unchanged when the artifact
directory lists no PDF. -/
theorem empty_candidate_set_safe (fz : String → String → Nat) (cit : String) :
    find_best_local_match fz cit [] = (none, -1)
    ∧ (∀ df : List Row5, select_tasks fz df [] = [])
    ∧ (∀ (s : Nat → String) (df : List Row5), run_fast_pipeline fz s df [] = df) := by
  refine ⟨rfl, ?_, ?_⟩
  · intro df
    exact selGo_empty_pdfs fz df 0
  · intro s df
    rw [run_fast_pipeline, select_tasks, selGo_empty_pdfs fz df 0]
    rfl

/-! ### Text Normalizer claims -/

/-- C3 counterexample: an absent (`None`) input does not normalize to the
normalization of the empty string — `str(None)` is `"None"`, which normalizes
to `"none"`, while `""` normalizes to `""`. -/
theorem normalize_absent_ne_empty :
    normalize_text_py none ≠ normalize_text_py (some "") := by decide

/-- C3 (amended): the Text Normalizer is deterministic and total, but an
absent (`None`) input is stringified to `"None"` and normalizes to the
non-empty string `"none"`, whereas the empty string normalizes to the empty
string. -/
theorem normalize_total_absent_is_none :
    normalize_text_py none = "none" ∧ normalize_text_py (some "") = "" := by
  exact ⟨by decide, by decide⟩

/-! ### Batch Classifier (`step2_relevancy_filter.py`)

The input CSV provides `Title`, `Abstract` and `DOI` per paper; the script
adds `Temp_ID` (the running row number), `Included := False` and
`Rejection_Reason := ""`. The Gemini call plus `json.loads` of its response
text is the external boundary: one `CallOutcome` per attempt — either a
parsed decision list or an exception message (rate-limit errors are
recognized by substring, exactly as the `except` branch does). -/

structure PaperIn where
  title : String
  abstract : String
  doiMissing : Bool
deriving DecidableEq, Repr

structure PaperRow where
  title : String
  abstract : String
  doiMissing : Bool
  tempId : Nat
  included : Bool
  rejection : String
deriving DecidableEq, Repr

/-- One object of the JSON array returned by the model; every key access in
the script uses `.get`, so each field may be absent. -/
structure Decision where
  id : Option Nat
  included : Option Bool
  reason : Option String
deriving DecidableEq, Repr

/-- Outcome of one `generate_content` + `json.loads` round trip. -/
inductive CallOutcome where
  | ok (decisions : List Decision)
  | exn (msg : String)
deriving DecidableEq, Repr

/-- Observable events of `screen_batch`: an API call, or `time.sleep(secs)`. -/
inductive Ev where
  | call
  | sleep (secs : Nat)
deriving DecidableEq, Repr

/-- `"429" in error_msg or "RESOURCE_EXHAUSTED" in error_msg`. -/
def rateLimited (msg : String) : Bool :=
  substrB "429" msg || substrB "RESOURCE_EXHAUSTED" msg

def MIN_ABSTRACT_LENGTH : Nat := 50

def REQUIRE_DOI : Bool := false

def bad_phrases : List String := ["no abstract", "abstract available", "see full text"]

/-- `pre_flight_check` from `step2_relevancy_filter.py`. -/
def pre_flight_check (p : PaperRow) : Bool × String :=
  if p.abstract.length < MIN_ABSTRACT_LENGTH then (false, "Abstract too short")
  else if bad_phrases.any (fun ph => isSubChars ph.toList (lowerChars p.abstract.toList)) then
    (false, "Placeholder text")
  else if REQUIRE_DOI && p.doiMissing then (false, "Missing DOI")
  else (true, "Passed")

/-- Row initialization: `df['Temp_ID'] = range(len(df))`,
`df["Included"] = False`, `df["Rejection_Reason"] = ""`. -/
def initGo : Nat → List PaperIn → List PaperRow
  | _, [] => []
  | i, p :: ps =>
    ⟨p.title, p.abstract, p.doiMissing, i, false, ""⟩ :: initGo (i + 1) ps

def initRows (ps : List PaperIn) : List PaperRow := initGo 0 ps

/-- Phase 1 effect on one row: rows failing pre-flight get
`Included := False` and `Rejection_Reason := "Auto-Reject: {reason}"`; rows
passing are left untouched (they are queued for the AI instead). -/
def mark_preflight (r : PaperRow) : PaperRow :=
  if (pre_flight_check r).1 then r
  else { r with included := false,
                rejection := "Auto-Reject: " ++ (pre_flight_check r).2 }

/-- The store after Phase 1. -/
def preflight_rows (ps : List PaperIn) : List PaperRow :=
  (initRows ps).map mark_preflight

/-- `valid_papers_for_ai`: the rows that passed pre-flight, in encounter
order (each appended from the row's snapshot dict before any mutation). -/
def valid_papers_for_ai (ps : List PaperIn) : List PaperRow :=
  (initRows ps).filter (fun r => (pre_flight_check r).1)

/-- `BATCH_SIZE = 20` slicing `valid_papers[i : i + 20]`, with a structural
fuel argument (fuel = list length always suffices) so the kernel can
evaluate it. -/
def chunksFuel {α : Type} : Nat → List α → List (List α)
  | _, [] => []
  | 0, l => [l]
  | fuel + 1, a :: rest => (a :: rest.take 19) :: chunksFuel fuel (rest.drop 19)

def chunks {α : Type} (l : List α) : List (List α) := chunksFuel l.length l

/-- The retry loop of `screen_batch` (`for attempt in range(3)`), with the
remaining attempt numbers and the event trace accumulated so far. On success
return the parsed decisions; on a rate-limited error sleep 10 s and retry; on
any other error print and return `[]`; after the loop return `[]`. -/
def screenAttempts (oracle : Nat → CallOutcome) :
    List Nat → List Ev → List Decision × List Ev
  | [], tr => ([], tr)
  | a :: rest, tr =>
    match oracle a with
    | CallOutcome.ok ds => (ds, tr ++ [Ev.call])
    | CallOutcome.exn m =>
      if rateLimited m then
        screenAttempts oracle rest (tr ++ [Ev.call, Ev.sleep 10])
      else ([], tr ++ [Ev.call])

/-- `screen_batch`: up to 3 attempts, returning the decision list and the
observable call/sleep trace. -/
def screen_batch (oracle : Nat → CallOutcome) : List Decision × List Ev :=
  screenAttempts oracle [0, 1, 2] []

/-- Phase 2 over the batch list: `results_map` is fed, batch by batch, with
every decision of every `screen_batch` result; the dict's last-write-wins
semantics is realized by keeping the concatenated list and looking up the
last matching entry. `oracle bi a` is the outcome of attempt `a` on batch
`bi`. -/
def collectGo (oracle : Nat → Nat → CallOutcome) :
    Nat → List (List PaperRow) → List Decision
  | _, [] => []
  | bi, _ :: rest => (screen_batch (oracle bi)).1 ++ collectGo oracle (bi + 1) rest

/-- `results_map[temp_id]` after all batches: the last decision whose `"ID"`
equals the row's `Temp_ID` (dict insertion overwrites earlier ones). -/
def results_map_find (ds : List Decision) (tid : Nat) : Option Decision :=
  ds.reverse.find? (fun d => decide (d.id = some tid))

/-- Phase 3: for every row, if its `Temp_ID` is in `results_map`, write
`Included` (default `False`) and `Rejection_Reason` (default `"Unknown"`)
from the decision; otherwise leave the row unchanged. -/
def mergeDecisions (rows : List PaperRow) (ds : List Decision) : List PaperRow :=
  rows.map fun r =>
    match results_map_find ds r.tempId with
    | some res =>
      { r with
        included := res.included.getD false
        rejection := res.reason.getD "Unknown" }
    | none => r

/-- The in-memory store at the end of the step-2 script (phases 2 and 3 run
only when `valid_papers_for_ai` is non-empty). -/
def step2_df (ps : List PaperIn) (oracle : Nat → Nat → CallOutcome) :
    List PaperRow :=
  if (valid_papers_for_ai ps).isEmpty then preflight_rows ps
  else
    mergeDecisions (preflight_rows ps)
      (collectGo oracle 0 (chunks (valid_papers_for_ai ps)))

/-- `filtered_df = df[df["Included"] == True]`, the frame the script persists
to the output CSV. -/
def filtered_df (ps : List PaperIn) (oracle : Nat → Nat → CallOutcome) :
    List PaperRow :=
  (step2_df ps oracle).filter (fun r => r.included)

theorem results_map_find_nil (tid : Nat) : results_map_find [] tid = none := rfl

theorem mergeDecisions_nil_decisions (rows : List PaperRow) :
    mergeDecisions rows [] = rows := by
  unfold mergeDecisions
  have : ∀ r : PaperRow,
      (match results_map_find [] r.tempId with
        | some res =>
          { r with
            included := res.included.getD false
            rejection := res.reason.getD "Unknown" }
        | none => r) = r := fun r => rfl
  simp only [this]
  exact List.map_id rows

theorem screen_batch_all_rate_limited (oracle : Nat → CallOutcome)
    (h : ∀ k, ∃ m, oracle k = CallOutcome.exn m ∧ rateLimited m = true) :
    screen_batch oracle
      = ([], [Ev.call, Ev.sleep 10, Ev.call, Ev.sleep 10, Ev.call, Ev.sleep 10]) := by
  obtain ⟨m0, e0, r0⟩ := h 0
  obtain ⟨m1, e1, r1⟩ := h 1
  obtain ⟨m2, e2, r2⟩ := h 2
  simp [screen_batch, screenAttempts, e0, e1, e2, r0, r1, r2]

theorem collectGo_all_rate_limited (oracle : Nat → Nat → CallOutcome)
    (h : ∀ bi k, ∃ m, oracle bi k = CallOutcome.exn m ∧ rateLimited m = true) :
    ∀ (batches : List (List PaperRow)) (bi : Nat),
      collectGo oracle bi batches = [] := by
  intro batches
  induction batches with
  | nil => intro bi; rfl
  | cons b rest ih =>
    intro bi
    show (screen_batch (oracle bi)).1 ++ collectGo oracle (bi + 1) rest = []
    rw [screen_batch_all_rate_limited (oracle bi) (h bi), ih (bi + 1)]
    rfl

/-- C4: a service that raises a rate-limit error on every call makes the
Batch Classifier attempt the batch exactly 3 times, sleeping 10 seconds
between attempts, then abandon it, returning an empty decision list (no
exception): merging an empty decision list leaves every row unchanged
(unresolved), and a whole run under such a service leaves the store exactly
as the pre-flight phase produced it. -/
theorem batch_retry_exhaustion (oracle : Nat → CallOutcome)
    (h : ∀ k, ∃ m, oracle k = CallOutcome.exn m ∧ rateLimited m = true) :
    screen_batch oracle
        = ([], [Ev.call, Ev.sleep 10, Ev.call, Ev.sleep 10, Ev.call, Ev.sleep 10])
    ∧ (∀ rows : List PaperRow, mergeDecisions rows [] = rows)
    ∧ (∀ (ps : List PaperIn) (oracle2 : Nat → Nat → CallOutcome),
        (∀ bi k, ∃ m, oracle2 bi k = CallOutcome.exn m ∧ rateLimited m = true) →
        step2_df ps oracle2 = preflight_rows ps) := by
  refine ⟨screen_batch_all_rate_limited oracle h, mergeDecisions_nil_decisions, ?_⟩
  intro ps oracle2 h2
  unfold step2_df
  by_cases hemp : (valid_papers_for_ai ps).isEmpty
  · rw [if_pos hemp]
  · rw [if_neg hemp, collectGo_all_rate_limited oracle2 h2,
      mergeDecisions_nil_decisions]

/-- A concrete always-rate-limited service. -/
def oracleRL : Nat → CallOutcome := fun _ => CallOutcome.exn "429 RESOURCE_EXHAUSTED"

/-- Witness for C4: the concrete always-rate-limited service produces
exactly 3 calls with 10-second sleeps and an empty decision list. -/
theorem batch_retry_exhaustion_witness :
    screen_batch oracleRL
      = ([], [Ev.call, Ev.sleep 10, Ev.call, Ev.sleep 10, Ev.call, Ev.sleep 10]) :=
  (batch_retry_exhaustion oracleRL
    (fun _ => ⟨"429 RESOURCE_EXHAUSTED", rfl, by decide⟩)).1

/-- C5: a non-retryable failure on the first attempt (service error, or a
response text that `json.loads` cannot parse — any exception whose message
does not look rate-limited) makes the Batch Classifier abandon the batch
after exactly one call, with no sleep, no retry and no exception: it returns
an empty decision list, whose merge leaves every row unchanged, and the
batch loop continues with the next batch. -/
theorem batch_abandon_nonretryable (oracle : Nat → CallOutcome) (m : String)
    (h0 : oracle 0 = CallOutcome.exn m) (hrl : rateLimited m = false) :
    screen_batch oracle = ([], [Ev.call])
    ∧ (∀ rows : List PaperRow, mergeDecisions rows [] = rows)
    ∧ (∀ (oracle2 : Nat → Nat → CallOutcome) (bi : Nat)
        (b : List PaperRow) (rest : List (List PaperRow)),
        oracle2 bi 0 = CallOutcome.exn m →
        collectGo oracle2 bi (b :: rest) = collectGo oracle2 (bi + 1) rest) := by
  refine ⟨?_, mergeDecisions_nil_decisions, ?_⟩
  · simp [screen_batch, screenAttempts, h0, hrl]
  · intro oracle2 bi b rest hb
    show (screen_batch (oracle2 bi)).1 ++ collectGo oracle2 (bi + 1) rest = _
    have : screen_batch (oracle2 bi) = ([], [Ev.call]) := by
      simp [screen_batch, screenAttempts, hb, hrl]
    rw [this]
    rfl

/-- A concrete non-retryable failing service (a JSON decode error message). -/
def oracleBad : Nat → CallOutcome :=
  fun _ => CallOutcome.exn "Expecting value: line 1 column 1 (char 0)"

/-- Witness for C5: one call, immediate abandonment, empty decision list. -/
theorem batch_abandon_nonretryable_witness :
    screen_batch oracleBad = ([], [Ev.call]) :=
  (batch_abandon_nonretryable oracleBad "Expecting value: line 1 column 1 (char 0)"
    rfl (by decide)).1

theorem mergeDecisions_get? (rows : List PaperRow) (ds : List Decision) (i : Nat) :
    (mergeDecisions rows ds).get? i
      = (rows.get? i).map (fun r =>
          match results_map_find ds r.tempId with
          | some res =>
            { r with
              included := res.included.getD false
              rejection := res.reason.getD "Unknown" }
          | none => r) := by
  unfold mergeDecisions
  exact List.get?_map _ rows i

/-- C6: the Phase-3 merge matches decisions to rows by identifier only: a row
whose `Temp_ID` has no decision in the response map is left unchanged
(unresolved), and a row whose `Temp_ID` has one is updated from exactly that
decision, independently of its position in the batch. -/
theorem merge_by_identifier (rows : List PaperRow) (ds : List Decision)
    (i : Nat) (r : PaperRow) (hr : rows.get? i = some r) :
    (results_map_find ds r.tempId = none →
      (mergeDecisions rows ds).get? i = some r)
    ∧ (∀ d, results_map_find ds r.tempId = some d →
      (mergeDecisions rows ds).get? i
        = some { r with
                 included := d.included.getD false
                 rejection := d.reason.getD "Unknown" }) := by
  constructor
  · intro hnone
    rw [mergeDecisions_get?, hr]
    simp only [Option.map_some']
    rw [hnone]
  · intro d hd
    rw [mergeDecisions_get?, hr]
    simp only [Option.map_some']
    rw [hd]

/-- A concrete 3-row store with identifiers 0, 1, 2. -/
def rows3 : List PaperRow :=
  [⟨"T0", "A0", false, 0, false, ""⟩,
   ⟨"T1", "A1", false, 1, false, ""⟩,
   ⟨"T2", "A2", false, 2, false, ""⟩]

/-- A response carrying decisions for identifiers 0 and 1 only. -/
def ds2 : List Decision :=
  [⟨some 0, some true, some "on topic"⟩, ⟨some 1, some false, some "off topic"⟩]

/-- Witness for C6: with decisions for 2 of 3 identifiers, the third row is
untouched by the merge. -/
theorem merge_by_identifier_witness :
    (mergeDecisions rows3 ds2).get? 2 = some ⟨"T2", "A2", false, 2, false, ""⟩ :=
  (merge_by_identifier rows3 ds2 2 ⟨"T2", "A2", false, 2, false, ""⟩ rfl).1 (by decide)

theorem initGo_mem_get? :
    ∀ (ps : List PaperIn) (k : Nat) (r : PaperRow), r ∈ initGo k ps →
      k ≤ r.tempId ∧ (initGo k ps).get? (r.tempId - k) = some r := by
  intro ps
  induction ps with
  | nil => intro k r h; cases h
  | cons p ps' ih =>
    intro k r h
    rcases List.mem_cons.mp h with rfl | htail
    · refine ⟨le_refl _, ?_⟩
      simp [initGo]
    · obtain ⟨hle, hget⟩ := ih (k + 1) r htail
      refine ⟨by omega, ?_⟩
      have hsub : r.tempId - k = (r.tempId - (k + 1)) + 1 := by omega
      rw [hsub]
      simpa [initGo] using hget

theorem initRows_get_self (ps : List PaperIn) (r : PaperRow)
    (h : r ∈ initRows ps) : (initRows ps).get? r.tempId = some r := by
  have := initGo_mem_get? ps 0 r h
  simpa using this.2

theorem initRows_tempId_inj (ps : List PaperIn) (r1 r2 : PaperRow)
    (h1 : r1 ∈ initRows ps) (h2 : r2 ∈ initRows ps)
    (heq : r1.tempId = r2.tempId) : r1 = r2 := by
  have g1 := initRows_get_self ps r1 h1
  have g2 := initRows_get_self ps r2 h2
  rw [heq] at g1
  rw [g1] at g2
  exact (Option.some.injEq _ _).mp g2

theorem chunksFuel_subset {α : Type} :
    ∀ (fuel : Nat) (l : List α) (b : List α), l.length ≤ fuel →
      b ∈ chunksFuel fuel l → ∀ x ∈ b, x ∈ l := by
  intro fuel
  induction fuel with
  | zero =>
    intro l b hlen hb
    cases l with
    | nil => cases hb
    | cons a rest => simp at hlen
  | succ fuel ih =>
    intro l b hlen hb
    cases l with
    | nil => cases hb
    | cons a rest =>
      rcases List.mem_cons.mp hb with rfl | hb'
      · intro x hx
        rcases List.mem_cons.mp hx with rfl | hx'
        · exact List.mem_cons_self _ _
        · exact List.mem_cons_of_mem _ (List.take_subset 19 rest hx')
      · intro x hx
        have hlen' : (rest.drop 19).length ≤ fuel := by
          simp only [List.length_drop]
          simp only [List.length_cons] at hlen
          omega
        exact List.mem_cons_of_mem _
          (List.drop_subset 19 rest (ih (rest.drop 19) b hlen' hb' x hx))

theorem chunks_subset {α : Type} (l : List α) (b : List α)
    (hb : b ∈ chunks l) : ∀ x ∈ b, x ∈ l :=
  chunksFuel_subset l.length l b (le_refl _) hb

theorem valid_papers_mem (ps : List PaperIn) (r : PaperRow)
    (h : r ∈ valid_papers_for_ai ps) :
    r ∈ initRows ps ∧ (pre_flight_check r).1 = true := by
  unfold valid_papers_for_ai at h
  exact List.mem_filter.mp h

theorem tempId_not_in_valid (ps : List PaperIn) (r : PaperRow)
    (hr : r ∈ initRows ps) (hf : (pre_flight_check r).1 = false) :
    r.tempId ∉ (valid_papers_for_ai ps).map PaperRow.tempId := by
  intro hmem
  obtain ⟨r', hr', heq⟩ := List.mem_map.mp hmem
  obtain ⟨hr'init, hr'pass⟩ := valid_papers_mem ps r' hr'
  have : r' = r := initRows_tempId_inj ps r' r hr'init hr heq
  rw [this] at hr'pass
  rw [hr'pass] at hf
  cases hf

theorem preflight_rows_get? (ps : List PaperIn) (i : Nat) :
    (preflight_rows ps).get? i = ((initRows ps).get? i).map mark_preflight := by
  unfold preflight_rows
  exact List.get?_map _ _ i

theorem mark_preflight_of_fail (r : PaperRow) (hf : (pre_flight_check r).1 = false) :
    mark_preflight r
      = { r with included := false,
                 rejection := "Auto-Reject: " ++ (pre_flight_check r).2 } := by
  unfold mark_preflight
  rw [if_neg (by rw [hf]; exact Bool.false_ne_true)]

/-- C7: a row that fails the local pre-flight content check (abstract shorter
than the minimum length, or placeholder text) appears in no batch — hence in
no call to the classification service — and is resolved locally: after
Phase 1 it carries `Included = False` and an `"Auto-Reject: ..."` reason, and
(as long as the service only answers with submitted identifiers, which is
its contract) the final store still carries that local rejection. -/
theorem preflight_short_circuit (ps : List PaperIn)
    (oracle : Nat → Nat → CallOutcome) (r : PaperRow)
    (hr : r ∈ initRows ps) (hf : (pre_flight_check r).1 = false) :
    (∀ b ∈ chunks (valid_papers_for_ai ps), r.tempId ∉ b.map PaperRow.tempId)
    ∧ (preflight_rows ps).get? r.tempId
        = some { r with included := false,
                        rejection := "Auto-Reject: " ++ (pre_flight_check r).2 }
    ∧ ((∀ d ∈ collectGo oracle 0 (chunks (valid_papers_for_ai ps)),
          ∀ tid, d.id = some tid →
            tid ∈ (valid_papers_for_ai ps).map PaperRow.tempId) →
        (step2_df ps oracle).get? r.tempId
          = some { r with included := false,
                          rejection := "Auto-Reject: " ++ (pre_flight_check r).2 }) := by
  have hnotvalid := tempId_not_in_valid ps r hr hf
  have hpre : (preflight_rows ps).get? r.tempId
      = some { r with included := false,
                      rejection := "Auto-Reject: " ++ (pre_flight_check r).2 } := by
    rw [preflight_rows_get?, initRows_get_self ps r hr, Option.map_some',
      mark_preflight_of_fail r hf]
  refine ⟨?_, hpre, ?_⟩
  · intro b hb hmem
    obtain ⟨r', hr'b, heq⟩ := List.mem_map.mp hmem
    apply hnotvalid
    exact List.mem_map.mpr ⟨r', chunks_subset _ b hb r' hr'b, heq⟩
  · intro hids
    unfold step2_df
    by_cases hemp : (valid_papers_for_ai ps).isEmpty
    · rw [if_pos hemp]
      exact hpre
    · rw [if_neg hemp, mergeDecisions_get?, hpre, Option.map_some']
      have hfind : results_map_find
          (collectGo oracle 0 (chunks (valid_papers_for_ai ps))) r.tempId = none := by
        unfold results_map_find
        rw [List.find?_eq_none]
        intro d hd
        simp only [decide_eq_true_eq]
        intro hid
        exact hnotvalid (hids d (List.mem_reverse.mp hd) r.tempId hid)
      have htid : ({ r with included := false, rejection := "Auto-Reject: " ++ (pre_flight_check r).2 } : PaperRow).tempId = r.tempId := rfl
      rw [htid, hfind]

/-- A concrete one-row input whose abstract is too short. -/
def psShort : List PaperIn := [⟨"T", "short", false⟩]

/-- A service that always succeeds with an empty decision list. -/
def oracleOk : Nat → Nat → CallOutcome := fun _ _ => CallOutcome.ok []

/-- Witness for C7: the short-abstract row is locally auto-rejected. -/
theorem preflight_short_circuit_witness :
    (preflight_rows psShort).get? 0
      = some ⟨"T", "short", false, 0, false, "Auto-Reject: Abstract too short"⟩ :=
  (preflight_short_circuit psShort oracleOk ⟨"T", "short", false, 0, false, ""⟩
    (by decide) (by decide)).2.1

theorem map_paper_field {β : Type} (g : PaperRow → β) (f : PaperRow → PaperRow)
    (h : ∀ x, g (f x) = g x) :
    ∀ l : List PaperRow, (l.map f).map g = l.map g := by
  intro l
  induction l with
  | nil => rfl
  | cons x xs ih => simp [h, ih]

theorem mark_preflight_tempId (r : PaperRow) :
    (mark_preflight r).tempId = r.tempId := by
  unfold mark_preflight
  by_cases h : (pre_flight_check r).1 = true
  · rw [if_pos h]
  · rw [if_neg h]

theorem mark_preflight_abstract (r : PaperRow) :
    (mark_preflight r).abstract = r.abstract := by
  unfold mark_preflight
  by_cases h : (pre_flight_check r).1 = true
  · rw [if_pos h]
  · rw [if_neg h]

theorem mergeFn_tempId (ds : List Decision) (r : PaperRow) :
    (match results_map_find ds r.tempId with
      | some res =>
        { r with
          included := res.included.getD false
          rejection := res.reason.getD "Unknown" }
      | none => r).tempId = r.tempId := by
  cases results_map_find ds r.tempId <;> rfl

theorem mergeFn_abstract (ds : List Decision) (r : PaperRow) :
    (match results_map_find ds r.tempId with
      | some res =>
        { r with
          included := res.included.getD false
          rejection := res.reason.getD "Unknown" }
      | none => r).abstract = r.abstract := by
  cases results_map_find ds r.tempId <;> rfl

theorem step2_df_map_tempId (ps : List PaperIn) (oracle : Nat → Nat → CallOutcome) :
    (step2_df ps oracle).map PaperRow.tempId = (initRows ps).map PaperRow.tempId := by
  unfold step2_df
  by_cases hemp : (valid_papers_for_ai ps).isEmpty
  · rw [if_pos hemp]
    exact map_paper_field _ _ mark_preflight_tempId _
  · rw [if_neg hemp]
    unfold mergeDecisions preflight_rows
    rw [map_paper_field _ _ (mergeFn_tempId _)]
    exact map_paper_field _ _ mark_preflight_tempId _

theorem step2_df_map_abstract (ps : List PaperIn) (oracle : Nat → Nat → CallOutcome) :
    (step2_df ps oracle).map PaperRow.abstract = (initRows ps).map PaperRow.abstract := by
  unfold step2_df
  by_cases hemp : (valid_papers_for_ai ps).isEmpty
  · rw [if_pos hemp]
    exact map_paper_field _ _ mark_preflight_abstract _
  · rw [if_neg hemp]
    unfold mergeDecisions preflight_rows
    rw [map_paper_field _ _ (mergeFn_abstract _)]
    exact map_paper_field _ _ mark_preflight_abstract _

/-- C2 counterexample: on a one-row input whose abstract fails pre-flight,
the persisted output of the Batch Classifier (`filtered_df`, the frame
written to the output CSV) has lost the row: the claim that no stage deletes
rows from the persisted store is false. -/
theorem persisted_store_drops_rows :
    (initRows psShort).map PaperRow.tempId = [0]
    ∧ (filtered_df psShort oracleOk).map PaperRow.tempId = []
    ∧ (filtered_df psShort oracleOk).map PaperRow.tempId
        ≠ (initRows psShort).map PaperRow.tempId := by
  refine ⟨by decide, by decide, by decide⟩

/-- C2 (amended): the Concurrent Item Analyzer deletes no row and mutates
only the `Method` field (row count, `Full Citation` and `Link` are preserved
pointwise); the Batch Classifier mutates only `Included` and
`Rejection_Reason` in its in-memory store (identifiers and abstracts are
preserved, so no row is deleted in memory), but what it persists at the end
is exactly the `Included == True` subset of that store — rejected rows are
absent from its persisted output. -/
theorem stage_frame_conditions :
    (∀ (fz : String → String → Nat) (s : Nat → String) (df : List Row5)
        (pdfs : List String),
      (run_fast_pipeline fz s df pdfs).length = df.length
      ∧ ∀ j : Nat,
          ((run_fast_pipeline fz s df pdfs).get? j).map Row5.citation
            = (df.get? j).map Row5.citation
          ∧ ((run_fast_pipeline fz s df pdfs).get? j).map Row5.link
            = (df.get? j).map Row5.link)
    ∧ (∀ (ps : List PaperIn) (oracle : Nat → Nat → CallOutcome),
        (step2_df ps oracle).map PaperRow.tempId = (initRows ps).map PaperRow.tempId
        ∧ (step2_df ps oracle).map PaperRow.abstract
            = (initRows ps).map PaperRow.abstract
        ∧ filtered_df ps oracle = (step2_df ps oracle).filter (fun r => r.included)) := by
  constructor
  · intro fz s df pdfs
    refine ⟨mergeAll_length s _ df, ?_⟩
    intro j
    by_cases hm : j ∈ (select_tasks fz df pdfs).map Prod.fst
    · rw [run_fast_pipeline, mergeAll_get?_mem s _ df j hm]
      cases df.get? j <;> exact ⟨rfl, rfl⟩
    · rw [run_fast_pipeline, mergeAll_get?_not_mem s _ df j hm]
      exact ⟨rfl, rfl⟩
  · intro ps oracle
    exact ⟨step2_df_map_tempId ps oracle, step2_df_map_abstract ps oracle, rfl⟩

/-! ### Per-item analysis task (`step5_analysis.py`, `analyze_single_paper`)

Everything beyond the repository's control flow — `shutil.copy2`, the upload,
each `files.get` poll, `generate_content`, and `json.loads` of the response —
is a `TaskOracle`: per external step, either a value or the raised
exception's message. The cloud-file delete and the local temp-file removal
are wrapped in `try/except: pass` in the source and have no effect on the
returned triple, so they do not appear in the model. -/

/-- `gemini_file.state.name`: `"PROCESSING"`, `"FAILED"`, or any ready state
(e.g. `"ACTIVE"`). -/
inductive FileSt where
  | processing
  | failed
  | active
deriving DecidableEq, Repr

structure TaskOracle where
  copy : Except String Unit
  upload : Except String FileSt
  polls : List (Except String FileSt)
  generate : Except String String
  parse : Except String (Option String × Option String)
deriving Repr

/-- The `while gemini_file.state.name == "PROCESSING"` loop: keep polling
while the state is `PROCESSING`; a poll may itself raise. `none` is returned
when the trace runs out while still `PROCESSING` (the loop would still be
running — it has no attempt bound of its own). -/
def pollUntil : FileSt → List (Except String FileSt) → Except String (Option FileSt)
  | FileSt.processing, [] => Except.ok none
  | FileSt.processing, p :: rest =>
    match p with
    | Except.error m => Except.error m
    | Except.ok st => pollUntil st rest
  | st, _ => Except.ok (some st)

/-- `analyze_single_paper`: returns `(row_idx, methodology, reason)`; every
exception is caught and mapped to `(row_idx, "Error", str(e))`; a `FAILED`
ingest state maps to `(row_idx, "Error", "File processing failed")`; on
success the parsed dict is read with `data.get("methodology", "Unknown")`
and `data.get("reason", "")`. The outer `Option` is `none` only when the
poll trace is exhausted mid-loop (the loop is still running). -/
def analyze_single_paper (row_idx : Nat) (o : TaskOracle) :
    Option (Nat × String × String) :=
  match o.copy with
  | Except.error m => some (row_idx, "Error", m)
  | Except.ok _ =>
    match o.upload with
    | Except.error m => some (row_idx, "Error", m)
    | Except.ok st0 =>
      match pollUntil st0 o.polls with
      | Except.error m => some (row_idx, "Error", m)
      | Except.ok none => none
      | Except.ok (some FileSt.failed) =>
        some (row_idx, "Error", "File processing failed")
      | Except.ok (some _) =>
        match o.generate with
        | Except.error m => some (row_idx, "Error", m)
        | Except.ok _ =>
          match o.parse with
          | Except.error m => some (row_idx, "Error", m)
          | Except.ok md => some (row_idx, md.1.getD "Unknown", md.2.getD "")

/-- C9: every exception in any stage of an item task (copy, upload, a poll,
the classification call, or response parsing) is mapped to a result of
category `"Error"` carrying the exception's description — never propagated;
an ingest trace with any number `n` of `PROCESSING` polls still terminates
once the service reports a terminal state, so the polling loop is bounded
only by the service's states, not by a fixed attempt count; and the run
merges the result of every submitted task, so no single item's failure
prevents the others from completing. -/
theorem analyzer_error_containment (row_idx : Nat) (o : TaskOracle) :
    (∀ m, o.copy = Except.error m →
      analyze_single_paper row_idx o = some (row_idx, "Error", m))
    ∧ (∀ m, o.copy = Except.ok () → o.upload = Except.error m →
      analyze_single_paper row_idx o = some (row_idx, "Error", m))
    ∧ (∀ m st0, o.copy = Except.ok () → o.upload = Except.ok st0 →
      pollUntil st0 o.polls = Except.error m →
      analyze_single_paper row_idx o = some (row_idx, "Error", m))
    ∧ (∀ st0, o.copy = Except.ok () → o.upload = Except.ok st0 →
      pollUntil st0 o.polls = Except.ok (some FileSt.failed) →
      analyze_single_paper row_idx o = some (row_idx, "Error", "File processing failed"))
    ∧ (∀ m st0, o.copy = Except.ok () → o.upload = Except.ok st0 →
      pollUntil st0 o.polls = Except.ok (some FileSt.active) →
      o.generate = Except.error m →
      analyze_single_paper row_idx o = some (row_idx, "Error", m))
    ∧ (∀ m st0 t, o.copy = Except.ok () → o.upload = Except.ok st0 →
      pollUntil st0 o.polls = Except.ok (some FileSt.active) →
      o.generate = Except.ok t → o.parse = Except.error m →
      analyze_single_paper row_idx o = some (row_idx, "Error", m))
    ∧ (∀ st0 t md, o.copy = Except.ok () → o.upload = Except.ok st0 →
      pollUntil st0 o.polls = Except.ok (some FileSt.active) →
      o.generate = Except.ok t → o.parse = Except.ok md →
      analyze_single_paper row_idx o
        = some (row_idx, md.1.getD "Unknown", md.2.getD ""))
    ∧ (∀ n : Nat,
      pollUntil FileSt.processing
          (List.replicate n (Except.ok FileSt.processing) ++ [Except.ok FileSt.active])
        = Except.ok (some FileSt.active))
    ∧ (∀ (s : Nat → String) (df : List Row5)
        (tasks : List (Nat × Option String)) (j : Nat),
      j ∈ tasks.map Prod.fst →
      (mergeAll s df tasks).get? j
        = (df.get? j).map (fun r => { r with method := s j })) := by
  refine ⟨?_, ?_, ?_, ?_, ?_, ?_, ?_, ?_, ?_⟩
  · intro m hm
    simp [analyze_single_paper, hm]
  · intro m hc hm
    simp [analyze_single_paper, hc, hm]
  · intro m st0 hc hu hp
    simp [analyze_single_paper, hc, hu, hp]
  · intro st0 hc hu hp
    simp [analyze_single_paper, hc, hu, hp]
  · intro m st0 hc hu hp hg
    simp [analyze_single_paper, hc, hu, hp, hg]
  · intro m st0 t hc hu hp hg hpr
    simp [analyze_single_paper, hc, hu, hp, hg, hpr]
  · intro st0 t md hc hu hp hg hpr
    simp [analyze_single_paper, hc, hu, hp, hg, hpr]
  · intro n
    induction n with
    | zero => rfl
    | succ n' ih => simpa [List.replicate, pollUntil] using ih
  · intro s df tasks j hj
    exact mergeAll_get?_mem s tasks df j hj

/-- A concrete oracle whose copy step raises. -/
def oracleBoom : TaskOracle :=
  ⟨Except.error "boom", Except.ok FileSt.active, [], Except.ok "{}",
    Except.ok (none, none)⟩

/-- Witness for C9: the raised copy-step exception is mapped to an `"Error"`
classification with the exception text. -/
theorem analyzer_error_containment_witness :
    analyze_single_paper 7 oracleBoom = some (7, "Error", "boom") :=
  (analyzer_error_containment 7 oracleBoom).1 "boom" rfl
